import Mathlib

/-!
Verification of the blob-autotile mask reconstruction tool
(scripts/verify-gm-blob.py).  The file shallowly embeds the data model and
the per-sheet pipeline of analyze_sheet: cell extraction, quadrant and
sub-region dissimilarity scores, gap-based threshold discovery, bit
composition and validation against the canonical 47-mask set.  Python
floats are modelled as rationals, list indexing errors as an error monad.
-/

namespace TileFun

/-- An RGBA pixel as decoded from the sheet image; channels are integers. -/
structure RGBA where
  r : ℤ
  g : ℤ
  b : ℤ
  a : ℤ
deriving DecidableEq, Repr

/-- An RGB triple (the reference cell drops its alpha channel). -/
abbrev RGB := ℤ × ℤ × ℤ

/-- The decoded sheet: random-access RGBA pixel lookup, x then y
    (the out-of-scope Pixel Source collaborator). -/
abbrev Sheet := ℕ → ℕ → RGBA

def TILE : ℕ := 16

def HALF : ℕ := 8

def COLS : ℕ := 12

def ROWS : ℕ := 4

/-- get_cell: all pixels of cell (col, row) as a flat row-major list
    (dy outer loop, dx inner loop). -/
def getCell (s : Sheet) (col row : ℕ) : List RGBA :=
  (List.range TILE).flatMap fun dy =>
    (List.range TILE).map fun dx => s (col * TILE + dx) (row * TILE + dy)

/-- The transparency test of lines 54 and 93: every pixel has alpha below 128. -/
def isUnused (cell : List RGBA) : Bool :=
  cell.all fun p => decide (p.a < 128)

/-- pixel_diff: squared color distance between two RGB tuples. -/
def pixelDiff (p q : RGB) : ℤ :=
  (p.1 - q.1) ^ 2 + (p.2.1 - q.2.1) ^ 2 + (p.2.2 - q.2.2) ^ 2

/-- The flat pixel indices visited by the double loop of sub_region_diff
    (dy outer, dx inner), idx = (y_start + dy) * TILE + (x_start + dx). -/
def regionIdx (xStart yStart xSize ySize : ℕ) : List ℕ :=
  (List.range ySize).flatMap fun dy =>
    (List.range xSize).map fun dx => (yStart + dy) * TILE + (xStart + dx)

/-- One iteration of the sub_region_diff loop: the value added to the running
    total for pixel index idx, namely the 10000 penalty when alpha is below
    128 and the squared RGB distance to the reference otherwise.  none models
    a Python IndexError from an out-of-range list access. -/
def pixelContrib (cell : List RGBA) (ref : List RGB) (idx : ℕ) : Option ℚ :=
  match cell.get? idx with
  | none => none
  | some p =>
    if p.a < 128 then some 10000
    else
      match ref.get? idx with
      | none => none
      | some q => some ((pixelDiff (p.r, p.g, p.b) q : ℤ) : ℚ)

/-- sub_region_diff: mean contribution over the region, 0 when the region is
    empty (the count guard of line 165). -/
def subRegionDiff (cell : List RGBA) (ref : List RGB)
    (xStart yStart xSize ySize : ℕ) : Option ℚ :=
  match (regionIdx xStart yStart xSize ySize).mapM (pixelContrib cell ref) with
  | none => none
  | some contribs =>
    some (if 0 < contribs.length then contribs.sum / (contribs.length : ℚ) else 0)

/-- quadrant_diff(cell, qx, qy): the same loop as sub_region_diff over the
    8 by 8 block anchored at the quadrant offset. -/
def quadrantDiff (cell : List RGBA) (ref : List RGB) (qx qy : ℕ) : Option ℚ :=
  subRegionDiff cell ref qx qy HALF HALF

/-- One per-cell record of the results list built by analyze_sheet.  The mask
    is None for a still-unclassified cell, -1 for an unused cell, and the
    recovered mask after classification. -/
structure Entry where
  col : ℕ
  row : ℕ
  mask : Option ℤ
  qdiffs : ℚ × ℚ × ℚ × ℚ
  edges : Option (ℚ × ℚ × ℚ × ℚ)
  corners : Option (ℚ × ℚ × ℚ × ℚ)
deriving DecidableEq, Repr

def defaultEntry : Entry :=
  { col := 0, row := 0, mask := none, qdiffs := (0, 0, 0, 0), edges := none, corners := none }

/-- The (col, row) pairs in the traversal order of the row-major loops of
    the script (row outer, col inner). -/
def cellCoords : List (ℕ × ℕ) :=
  (List.range ROWS).flatMap fun row => (List.range COLS).map fun col => (col, row)

/-- The transparent-cell scan of lines 50-55: the LAST fully transparent
    cell encountered wins. -/
def findUnused (s : Sheet) : Option (ℕ × ℕ) :=
  cellCoords.foldl (fun acc p => if isUnused (getCell s p.1 p.2) then some p else acc) none

/-- ref_rgb: the RGB values of the reference cell at (col = 1, row = 0). -/
def refRGB (s : Sheet) : List RGB :=
  (getCell s 1 0).map fun p => (p.r, p.g, p.b)

/-- Lift an optional score into the error monad: a missing value is a Python
    IndexError aborting the run. -/
def liftIndex (o : Option ℚ) : Except String ℚ :=
  match o with
  | some v => .ok v
  | none => .error "IndexError: list index out of range"

/-- One iteration of the first per-cell loop (lines 90-107): an unused cell is
    recorded with mask -1 and zero qdiffs, any other cell gets its four
    quadrant diffs (NW, NE, SW, SE). -/
def mkEntryA (s : Sheet) (ref : List RGB) (col row : ℕ) : Except String Entry :=
  if isUnused (getCell s col row) then
    .ok { col := col, row := row, mask := some (-1), qdiffs := (0, 0, 0, 0),
          edges := none, corners := none }
  else do
    let nw ← liftIndex (quadrantDiff (getCell s col row) ref 0 0)
    let ne ← liftIndex (quadrantDiff (getCell s col row) ref HALF 0)
    let sw ← liftIndex (quadrantDiff (getCell s col row) ref 0 HALF)
    let se ← liftIndex (quadrantDiff (getCell s col row) ref HALF HALF)
    .ok { col := col, row := row, mask := none, qdiffs := (nw, ne, sw, se),
          edges := none, corners := none }

def phaseA (s : Sheet) (ref : List RGB) : Except String (List Entry) :=
  cellCoords.mapM fun p => mkEntryA s ref p.1 p.2

/-- all_qdiffs: the quadrant diffs pooled over non-unused cells in traversal
    order (line 107). -/
def allQDiffs (entries : List Entry) : List ℚ :=
  entries.flatMap fun e =>
    if e.mask = some (-1) then []
    else [e.qdiffs.1, e.qdiffs.2.1, e.qdiffs.2.2.1, e.qdiffs.2.2.2]

/-- The adjacent gap ending at position j of a sorted pool. -/
def gapAt (sd : List ℚ) (j : ℕ) : ℚ :=
  sd.getD j 0 - sd.getD (j - 1) 0

/-- One iteration of the max-gap loop: update (max_gap, gap_idx) only on
    strict improvement. -/
def gapStep (sd : List ℚ) (p : ℚ × ℕ) (i : ℕ) : ℚ × ℕ :=
  if p.1 < gapAt sd i then (gapAt sd i, i) else p

/-- The max-gap scan shared by both threshold searches: fold over indices
    1 .. len-1 starting from (max_gap, gap_idx) = (0, 0). -/
def gapFold (sd : List ℚ) : ℚ × ℕ :=
  (List.range' 1 (sd.length - 1)).foldl (gapStep sd) (0, 0)

/-- The first-pass threshold block (lines 112-128): keep the positive quadrant
    diffs, sort ascending, and take the midpoint across the largest gap, with
    the first-value fallback when no index improved.  When no positive diff
    exists the unguarded diagnostic print applies min to the empty list, so
    the run dies with a ValueError and the computed default 100 is never
    reached. -/
def quadThreshold (allQ : List ℚ) : Except String ℚ :=
  let sd := (allQ.filter fun d => decide (0 < d)).insertionSort (· ≤ ·)
  if sd.isEmpty then .error "ValueError: min() arg is an empty sequence"
  else
    let gi := (gapFold sd).2
    if 0 < gi then .ok ((sd.getD (gi - 1) 0 + sd.getD gi 0) / 2)
    else .ok (sd.getD 0 0 / 2)

/-- find_threshold (lines 208-222): sort ascending and take the midpoint
    across the largest gap; with gap_idx = 0 fall back to half the last value
    (a negative Python index).  On an empty pool the diagnostic print indexes
    the empty list and raises IndexError, so the computed default 100 is
    never returned. -/
def findThreshold (diffs : List ℚ) : Except String ℚ :=
  let sd := diffs.insertionSort (· ≤ ·)
  let gi := (gapFold sd).2
  if 0 < gi then .ok ((sd.getD (gi - 1) 0 + sd.getD gi 0) / 2)
  else
    match sd.getLast? with
    | some v => .ok (v / 2)
    | none => .error "IndexError: list index out of range"

/-- The second per-cell loop (lines 178-197): skip unused entries, fill the
    eight region scores; edges are stored as (N, W, E, S) and corners as
    (NW, NE, SW, SE). -/
def fillRegions (s : Sheet) (ref : List RGB) (e : Entry) : Except String Entry :=
  if e.mask = some (-1) then .ok e
  else do
    let nd ← liftIndex (subRegionDiff (getCell s e.col e.row) ref 3 0 10 3)
    let sd ← liftIndex (subRegionDiff (getCell s e.col e.row) ref 3 13 10 3)
    let wd ← liftIndex (subRegionDiff (getCell s e.col e.row) ref 0 3 3 10)
    let ed ← liftIndex (subRegionDiff (getCell s e.col e.row) ref 13 3 3 10)
    let nwd ← liftIndex (subRegionDiff (getCell s e.col e.row) ref 0 0 4 4)
    let ned ← liftIndex (subRegionDiff (getCell s e.col e.row) ref 12 0 4 4)
    let swd ← liftIndex (subRegionDiff (getCell s e.col e.row) ref 0 12 4 4)
    let sed ← liftIndex (subRegionDiff (getCell s e.col e.row) ref 12 12 4 4)
    .ok { e with edges := some (nd, wd, ed, sd), corners := some (nwd, ned, swd, sed) }

def entryEdgeList (e : Entry) : List ℚ :=
  match e.edges with
  | some t => [t.1, t.2.1, t.2.2.1, t.2.2.2]
  | none => []

def entryCornerList (e : Entry) : List ℚ :=
  match e.corners with
  | some t => [t.1, t.2.1, t.2.2.1, t.2.2.2]
  | none => []

/-- The pooling guard of lines 202-206: an entry contributes its edge diffs
    unless it is the unused cell or its regions were never filled. -/
def edgeContrib (e : Entry) : List ℚ :=
  if e.mask = some (-1) ∨ e.edges = none then [] else entryEdgeList e

def cornerContrib (e : Entry) : List ℚ :=
  if e.mask = some (-1) ∨ e.edges = none then [] else entryCornerList e

/-- all_edge_diffs: the edge diffs pooled sheet-wide. -/
def edgePool (entries : List Entry) : List ℚ :=
  entries.flatMap edgeContrib

/-- all_corner_diffs: the corner diffs pooled sheet-wide. -/
def cornerPool (entries : List Entry) : List ℚ :=
  entries.flatMap cornerContrib

/-- The bit composition of lines 240-249: cardinal bits N=1 W=2 E=4 S=8 from
    the four edge comparisons, then each diagonal bit (NW=16 NE=32 SW=64
    SE=128) only when both flanking cardinals are set and the corner
    comparison passes. -/
def composeMask (n w e s nwOk neOk swOk seOk : Bool) : ℕ :=
  let m : ℕ := 0
  let m := if n then m ||| 1 else m
  let m := if w then m ||| 2 else m
  let m := if e then m ||| 4 else m
  let m := if s then m ||| 8 else m
  let m := if n && w && nwOk then m ||| 16 else m
  let m := if n && e && neOk then m ||| 32 else m
  let m := if s && w && swOk then m ||| 64 else m
  let m := if s && e && seOk then m ||| 128 else m
  m

/-- The per-cell classification of lines 234-249: a cardinal is present when
    its edge diff is below the edge threshold, a corner passes when its diff
    is below the corner threshold.  Edges are (N, W, E, S), corners are
    (NW, NE, SW, SE). -/
def classifyMask (edges corners : ℚ × ℚ × ℚ × ℚ) (eThr cThr : ℚ) : ℕ :=
  composeMask
    (decide (edges.1 < eThr)) (decide (edges.2.1 < eThr))
    (decide (edges.2.2.1 < eThr)) (decide (edges.2.2.2 < eThr))
    (decide (corners.1 < cThr)) (decide (corners.2.1 < cThr))
    (decide (corners.2.2.1 < cThr)) (decide (corners.2.2.2 < cThr))

/-- The classification loop guard of line 229 plus the mask assignment of
    line 251. -/
def classifyEntry (eThr cThr : ℚ) (e : Entry) : Entry :=
  if e.mask = some (-1) ∨ e.edges = none then e
  else
    match e.edges, e.corners with
    | some ed, some co => { e with mask := some ((classifyMask ed co eThr cThr : ℕ) : ℤ) }
    | _, _ => e

/-- The mask selection of line 272: masks of entries with mask at least 0. -/
def maskSel (e : Entry) : Option ℤ :=
  match e.mask with
  | some m => if 0 ≤ m then some m else none
  | none => none

def masksOf (entries : List Entry) : List ℤ :=
  entries.filterMap maskSel

/-- The canonical 47-mask constant expected_47 of lines 274-277. -/
def expected47 : Finset ℤ :=
  {0, 1, 2, 3, 4, 5, 6, 7, 8, 9, 10, 11, 12, 13, 14, 15,
   19, 23, 27, 31, 37, 39, 45, 47, 55, 63, 74, 75, 78, 79, 91,
   95, 111, 127, 140, 141, 142, 143, 159, 173, 175, 191, 206,
   207, 223, 239, 255}

def presentOf (entries : List Entry) : Finset ℤ :=
  (masksOf entries).toFinset

def missingOf (entries : List Entry) : Finset ℤ :=
  expected47 \ presentOf entries

def extraOf (entries : List Entry) : Finset ℤ :=
  presentOf entries \ expected47

/-- The duplicated-mask dictionary of line 282, as the set of its keys:
    masks observed more than once (the extra nonnegativity test of the
    comprehension is kept). -/
def duplicatedOf (entries : List Entry) : Finset ℤ :=
  (presentOf entries).filter fun m => 1 < (masksOf entries).count m ∧ 0 ≤ m

/-- The success condition of lines 292 and 296: no missing, no extra and no
    duplicated masks. -/
def perfectMatch (entries : List Entry) : Bool :=
  decide (missingOf entries = ∅) && decide (extraOf entries = ∅) &&
    decide (duplicatedOf entries = ∅)

/-- The Python sort key of line 298 (all masks are set integers by then). -/
def entryKeyLE (a b : Entry) : Prop :=
  a.mask.getD 0 ≤ b.mask.getD 0

instance : DecidableRel entryKeyLE := fun a b =>
  inferInstanceAs (Decidable (a.mask.getD 0 ≤ b.mask.getD 0))

instance : IsTotal Entry entryKeyLE :=
  ⟨fun a b => le_total (a.mask.getD 0) (b.mask.getD 0)⟩

instance : IsTrans Entry entryKeyLE :=
  ⟨fun _ _ _ h h2 => le_trans h h2⟩

/-- The mapping emitted on success by lines 296-300: entries sorted ascending
    by mask, unused entries filtered out, as (mask, col, row) triples. -/
def outputMapping (entries : List Entry) : Option (List (ℤ × ℕ × ℕ)) :=
  if perfectMatch entries then
    some ((entries.insertionSort entryKeyLE).filterMap fun e =>
      match e.mask with
      | some m => if 0 ≤ m then some (m, e.col, e.row) else none
      | none => none)
  else none

instance {ε α : Type} [DecidableEq ε] [DecidableEq α] : DecidableEq (Except ε α) := fun a b =>
  match a, b with
  | .ok x, .ok y =>
    if h : x = y then .isTrue (by rw [h]) else .isFalse fun hc => h (Except.ok.inj hc)
  | .error x, .error y =>
    if h : x = y then .isTrue (by rw [h]) else .isFalse fun hc => h (Except.error.inj hc)
  | .ok x, .error y => .isFalse fun hc => Except.noConfusion hc
  | .error x, .ok y => .isFalse fun hc => Except.noConfusion hc

/-- The per-sheet outcome: the detected unused cell, the three discovered
    thresholds and the final per-cell records. -/
structure AnalysisResult where
  unused : Option (ℕ × ℕ)
  quadThresh : ℚ
  edgeThresh : ℚ
  cornerThresh : ℚ
  results : List Entry
deriving DecidableEq, Repr

/-- analyze_sheet, phase by phase: unused-cell scan, reference extraction,
    quadrant diffs, first-pass threshold, region diffs, the two pooled
    thresholds, classification. -/
def analyzeSheet (s : Sheet) : Except String AnalysisResult := do
  let unused := findUnused s
  let ref := refRGB s
  let entriesA ← phaseA s ref
  let qThr ← quadThreshold (allQDiffs entriesA)
  let entriesB ← entriesA.mapM (fillRegions s ref)
  let eThr ← findThreshold (edgePool entriesB)
  let cThr ← findThreshold (cornerPool entriesB)
  .ok { unused := unused, quadThresh := qThr, edgeThresh := eThr,
        cornerThresh := cThr, results := entriesB.map (classifyEntry eThr cThr) }

def resultsOf (s : Sheet) : List Entry :=
  match analyzeSheet s with
  | .ok r => r.results
  | .error _ => []

def edgeThreshOf (s : Sheet) : ℚ :=
  match analyzeSheet s with
  | .ok r => r.edgeThresh
  | .error _ => 0

def cornerThreshOf (s : Sheet) : ℚ :=
  match analyzeSheet s with
  | .ok r => r.cornerThresh
  | .error _ => 0

def maskAtOf (s : Sheet) (col row : ℕ) : Option ℤ :=
  ((resultsOf s).find? fun e => e.col == col && e.row == row).bind Entry.mask

/-- The grid entries printed as numbers rather than the placeholder:
    those with a nonnegative mask (lines 264-267). -/
def activeEntries (entries : List Entry) : List Entry :=
  entries.filter fun e =>
    match e.mask with
    | some m => decide (0 ≤ m)
    | none => false

def solidPix : RGBA := { r := 10, g := 10, b := 10, a := 255 }

def devPix : RGBA := { r := 210, g := 10, b := 10, a := 255 }

def clearPix : RGBA := { r := 0, g := 0, b := 0, a := 0 }

/-- A sheet whose only opaque cell is the reference at (1, 0); every other
    cell, the spare slot included, is fully transparent. -/
def refOnlySheet : Sheet := fun x y =>
  if 16 ≤ x ∧ x < 32 ∧ y < 16 then solidPix else clearPix

/-- A sheet whose reference cell (1, 0) is fully transparent while cell
    (0, 0) is a solid opaque color. -/
def clearRefSheet : Sheet := fun x y =>
  if x < 16 ∧ y < 16 then { r := 10, g := 0, b := 0, a := 255 } else clearPix

/-- A sheet with the reference at (1, 0) and, at (0, 0), a cell identical to
    the reference everywhere except a large color deviation on its North edge
    region (local columns 3..12, rows 0..2); all other cells transparent. -/
def northDevSheet : Sheet := fun x y =>
  if 16 ≤ x ∧ x < 32 ∧ y < 16 then solidPix
  else if x < 16 ∧ y < 16 then
    (if 3 ≤ x ∧ x < 13 ∧ y < 3 then devPix else solidPix)
  else clearPix

/-! ### Spec-side definitions for the refinement claims

The following definitions follow the WORDS of the specification (sections 3
and 4.2), to be compared against the embedded code: region geometry as
coordinate predicates over the 16 by 16 cell, and the dissimilarity score as
a mean over the region pixels. -/

/-- Spec North region: the 3-thick, 10-long centered top edge strip,
    excluding corners: local x in 3..12, y in 0..2 (flat row-major index,
    x = i mod 16, y = i div 16). -/
def specRegionN : List ℕ :=
  (List.range 256).filter fun i => decide (3 ≤ i % 16 ∧ i % 16 ≤ 12 ∧ i / 16 ≤ 2)

/-- Spec South region: bottom edge strip, x in 3..12, y in 13..15. -/
def specRegionS : List ℕ :=
  (List.range 256).filter fun i => decide (3 ≤ i % 16 ∧ i % 16 ≤ 12 ∧ 13 ≤ i / 16)

/-- Spec West region: left edge strip, x in 0..2, y in 3..12. -/
def specRegionW : List ℕ :=
  (List.range 256).filter fun i => decide (i % 16 ≤ 2 ∧ 3 ≤ i / 16 ∧ i / 16 ≤ 12)

/-- Spec East region: right edge strip, x in 13..15, y in 3..12. -/
def specRegionE : List ℕ :=
  (List.range 256).filter fun i => decide (13 ≤ i % 16 ∧ 3 ≤ i / 16 ∧ i / 16 ≤ 12)

/-- Spec NW corner: the top-left 4 by 4 block. -/
def specRegionNW : List ℕ :=
  (List.range 256).filter fun i => decide (i % 16 ≤ 3 ∧ i / 16 ≤ 3)

/-- Spec NE corner: the top-right 4 by 4 block. -/
def specRegionNE : List ℕ :=
  (List.range 256).filter fun i => decide (12 ≤ i % 16 ∧ i / 16 ≤ 3)

/-- Spec SW corner: the bottom-left 4 by 4 block. -/
def specRegionSW : List ℕ :=
  (List.range 256).filter fun i => decide (i % 16 ≤ 3 ∧ 12 ≤ i / 16)

/-- Spec SE corner: the bottom-right 4 by 4 block. -/
def specRegionSE : List ℕ :=
  (List.range 256).filter fun i => decide (12 ≤ i % 16 ∧ 12 ≤ i / 16)

/-- Spec score of one pixel: a fixed large penalty (10000) when alpha is
    below 128, otherwise the squared Euclidean RGB distance to the reference
    at the same offset. -/
def specPixelScore (cell : List RGBA) (ref : List RGB) (i : ℕ) : ℚ :=
  let p := cell.getD i clearPix
  if p.a < 128 then 10000
  else ((pixelDiff (p.r, p.g, p.b) (ref.getD i (0, 0, 0)) : ℤ) : ℚ)

/-- Spec dissimilarity of a region: the mean of the per-pixel scores. -/
def specRegionScore (cell : List RGBA) (ref : List RGB) (region : List ℕ) : ℚ :=
  (region.map (specPixelScore cell ref)).sum / (region.length : ℚ)

/-! ### Generic lemmas: the error monad, mapM and Forall₂ -/

theorem ok_bind {ε α β : Type} (a : α) (f : α → Except ε β) :
    (Except.ok a >>= f) = f a := rfl

theorem error_bind {ε α β : Type} (e : ε) (f : α → Except ε β) :
    ((Except.error e : Except ε α) >>= f) = Except.error e := rfl

theorem pure_eq_ok {ε α : Type} (a : α) : (pure a : Except ε α) = Except.ok a := rfl

theorem bind_ok_iff {ε α β : Type} {x : Except ε α} {f : α → Except ε β} {b : β} :
    x >>= f = .ok b ↔ ∃ a, x = .ok a ∧ f a = .ok b := by
  cases x with
  | ok a => simp [ok_bind]
  | error e => simp [error_bind]

theorem mapM_ok_forall2 {α β : Type} {f : α → Except String β} :
    ∀ {l : List α} {l2 : List β}, l.mapM f = .ok l2 →
      List.Forall₂ (fun a b => f a = .ok b) l l2 := by
  intro l
  induction l with
  | nil =>
    intro l2 h
    rw [List.mapM_nil, pure_eq_ok] at h
    cases h
    exact List.Forall₂.nil
  | cons a l ih =>
    intro l2 h
    rw [List.mapM_cons] at h
    obtain ⟨b, hb, h2⟩ := bind_ok_iff.mp h
    obtain ⟨bs, hbs, h3⟩ := bind_ok_iff.mp h2
    rw [pure_eq_ok] at h3
    cases h3
    exact List.Forall₂.cons hb (ih hbs)

theorem forall2_mem_right {α β : Type} {R : α → β → Prop} :
    ∀ {l1 : List α} {l2 : List β}, List.Forall₂ R l1 l2 →
      ∀ {b}, b ∈ l2 → ∃ a ∈ l1, R a b := by
  intro l1 l2 h
  induction h with
  | nil => intro b hb; cases hb
  | cons hr _ ih =>
    intro b hb
    rcases List.mem_cons.mp hb with rfl | hb2
    · exact ⟨_, List.mem_cons_self _ _, hr⟩
    · obtain ⟨a, ha, hra⟩ := ih hb2
      exact ⟨a, List.mem_cons_of_mem _ ha, hra⟩

theorem forall2_mem_left {α β : Type} {R : α → β → Prop} :
    ∀ {l1 : List α} {l2 : List β}, List.Forall₂ R l1 l2 →
      ∀ {a}, a ∈ l1 → ∃ b ∈ l2, R a b := by
  intro l1 l2 h
  induction h with
  | nil => intro a ha; cases ha
  | cons hr _ ih =>
    intro a ha
    rcases List.mem_cons.mp ha with rfl | ha2
    · exact ⟨_, List.mem_cons_self _ _, hr⟩
    · obtain ⟨b, hb, hrb⟩ := ih ha2
      exact ⟨b, List.mem_cons_of_mem _ hb, hrb⟩

theorem forall2_chain {A B C D : Type} {R : A → B → Prop} {S : B → C → Prop}
    {T : A → D → Prop} (g : C → D)
    (hpt : ∀ a b c, R a b → S b c → T a (g c)) :
    ∀ {l1 : List A} {l2 : List B} {l3 : List C},
      List.Forall₂ R l1 l2 → List.Forall₂ S l2 l3 →
        List.Forall₂ T l1 (l3.map g) := by
  intro l1 l2 l3 h1
  induction h1 generalizing l3 with
  | nil =>
    intro h2
    cases h2
    exact List.Forall₂.nil
  | cons hr _ ih =>
    intro h2
    cases h2 with
    | cons hs htail =>
      exact List.Forall₂.cons (hpt _ _ _ hr hs) (ih htail)

/-! ### The region differ computes the spec mean -/

theorem pixelContrib_eq_spec (cell : List RGBA) (ref : List RGB) (i : ℕ)
    (h1 : i < cell.length) (h2 : i < ref.length) :
    pixelContrib cell ref i = some (specPixelScore cell ref i) := by
  have hc : cell.get? i = some (cell.get ⟨i, h1⟩) := List.get?_eq_get h1
  have hr : ref.get? i = some (ref.get ⟨i, h2⟩) := List.get?_eq_get h2
  have hcD : cell.getD i clearPix = cell.get ⟨i, h1⟩ := by
    rw [List.getD_eq_get?, hc, Option.getD_some]
  have hrD : ref.getD i (0, 0, 0) = ref.get ⟨i, h2⟩ := by
    rw [List.getD_eq_get?, hr, Option.getD_some]
  unfold pixelContrib specPixelScore
  rw [hc, hcD, hrD]
  dsimp only
  by_cases hp : (cell.get ⟨i, h1⟩).a < 128
  · rw [if_pos hp, if_pos hp]
  · rw [if_neg hp, if_neg hp, hr]

theorem mapM_pixelContrib (cell : List RGBA) (ref : List RGB) :
    ∀ (idxs : List ℕ), (∀ i ∈ idxs, i < cell.length ∧ i < ref.length) →
      idxs.mapM (pixelContrib cell ref) = some (idxs.map (specPixelScore cell ref)) := by
  intro idxs
  induction idxs with
  | nil => intro _; rfl
  | cons i idxs ih =>
    intro h
    have hi := h i (List.mem_cons_self _ _)
    have hrest : ∀ j ∈ idxs, j < cell.length ∧ j < ref.length := fun j hj =>
      h j (List.mem_cons_of_mem _ hj)
    rw [List.mapM_cons, pixelContrib_eq_spec cell ref i hi.1 hi.2, ih hrest]
    rfl

theorem subRegionDiff_spec (cell : List RGBA) (ref : List RGB)
    (xs ys xsz ysz : ℕ) (idxs : List ℕ)
    (hidx : regionIdx xs ys xsz ysz = idxs)
    (hmem : ∀ i ∈ idxs, i < cell.length ∧ i < ref.length)
    (hne : idxs ≠ []) :
    subRegionDiff cell ref xs ys xsz ysz = some (specRegionScore cell ref idxs) := by
  unfold subRegionDiff
  rw [hidx, mapM_pixelContrib cell ref idxs hmem]
  dsimp only
  have hlen2 : 0 < idxs.length := List.length_pos.mpr hne
  rw [List.length_map, if_pos hlen2]
  unfold specRegionScore
  rfl

/-! ### Bit composition facts -/

theorem composeMask_diag (n w e s nwOk neOk swOk seOk : Bool) :
    (composeMask n w e s nwOk neOk swOk seOk &&& 16 ≠ 0 →
      composeMask n w e s nwOk neOk swOk seOk &&& 1 ≠ 0 ∧
        composeMask n w e s nwOk neOk swOk seOk &&& 2 ≠ 0) ∧
    (composeMask n w e s nwOk neOk swOk seOk &&& 32 ≠ 0 →
      composeMask n w e s nwOk neOk swOk seOk &&& 1 ≠ 0 ∧
        composeMask n w e s nwOk neOk swOk seOk &&& 4 ≠ 0) ∧
    (composeMask n w e s nwOk neOk swOk seOk &&& 64 ≠ 0 →
      composeMask n w e s nwOk neOk swOk seOk &&& 8 ≠ 0 ∧
        composeMask n w e s nwOk neOk swOk seOk &&& 2 ≠ 0) ∧
    (composeMask n w e s nwOk neOk swOk seOk &&& 128 ≠ 0 →
      composeMask n w e s nwOk neOk swOk seOk &&& 8 ≠ 0 ∧
        composeMask n w e s nwOk neOk swOk seOk &&& 4 ≠ 0) := by
  revert n w e s nwOk neOk swOk seOk
  decide

/-! ### Phase-by-phase inversion of the pipeline -/

def unusedEntry (col row : ℕ) : Entry :=
  { col := col, row := row, mask := some (-1), qdiffs := (0, 0, 0, 0),
    edges := none, corners := none }

theorem mkEntryA_ok {s : Sheet} {ref : List RGB} {col row : ℕ} {e : Entry}
    (h : mkEntryA s ref col row = .ok e) :
    e.col = col ∧ e.row = row ∧
      ((isUnused (getCell s col row) = true ∧ e = unusedEntry col row) ∨
       (isUnused (getCell s col row) = false ∧ e.mask = none ∧
         e.edges = none ∧ e.corners = none)) := by
  unfold mkEntryA at h
  split at h
  · next hu =>
    cases h
    exact ⟨rfl, rfl, Or.inl ⟨hu, rfl⟩⟩
  · next hu =>
    obtain ⟨nw, _, h⟩ := bind_ok_iff.mp h
    obtain ⟨ne, _, h⟩ := bind_ok_iff.mp h
    obtain ⟨sw, _, h⟩ := bind_ok_iff.mp h
    obtain ⟨se, _, h⟩ := bind_ok_iff.mp h
    cases h
    exact ⟨rfl, rfl, Or.inr ⟨Bool.eq_false_iff.mpr hu, rfl, rfl, rfl⟩⟩

theorem fillRegions_ok {s : Sheet} {ref : List RGB} {e e2 : Entry}
    (h : fillRegions s ref e = .ok e2) :
    (e.mask = some (-1) ∧ e2 = e) ∨
      (e.mask ≠ some (-1) ∧ ∃ ed co,
        e2 = { e with edges := some ed, corners := some co }) := by
  unfold fillRegions at h
  split at h
  · next hm => cases h; exact Or.inl ⟨hm, rfl⟩
  · next hm =>
    obtain ⟨nd, _, h⟩ := bind_ok_iff.mp h
    obtain ⟨sd, _, h⟩ := bind_ok_iff.mp h
    obtain ⟨wd, _, h⟩ := bind_ok_iff.mp h
    obtain ⟨ed, _, h⟩ := bind_ok_iff.mp h
    obtain ⟨nwd, _, h⟩ := bind_ok_iff.mp h
    obtain ⟨ned, _, h⟩ := bind_ok_iff.mp h
    obtain ⟨swd, _, h⟩ := bind_ok_iff.mp h
    obtain ⟨sed, _, h⟩ := bind_ok_iff.mp h
    cases h
    exact Or.inr ⟨hm, (nd, wd, ed, sd), (nwd, ned, swd, sed), rfl⟩

theorem classifyEntry_unused (eThr cThr : ℚ) {e : Entry} (h : e.mask = some (-1)) :
    classifyEntry eThr cThr e = e := by
  unfold classifyEntry
  rw [if_pos (Or.inl h)]

theorem classifyEntry_active (eThr cThr : ℚ) {e : Entry} {ed co : ℚ × ℚ × ℚ × ℚ}
    (hm : e.mask = none) (hed : e.edges = some ed) (hco : e.corners = some co) :
    classifyEntry eThr cThr e =
      { e with mask := some ((classifyMask ed co eThr cThr : ℕ) : ℤ) } := by
  unfold classifyEntry
  rw [if_neg]
  · rw [show e.edges = some ed from hed, hco]
  · rw [hm, hed]
    simp

theorem analyzeSheet_ok_inv {s : Sheet} {r : AnalysisResult}
    (h : analyzeSheet s = .ok r) :
    ∃ entriesA entriesB,
      phaseA s (refRGB s) = .ok entriesA ∧
      quadThreshold (allQDiffs entriesA) = .ok r.quadThresh ∧
      entriesA.mapM (fillRegions s (refRGB s)) = .ok entriesB ∧
      findThreshold (edgePool entriesB) = .ok r.edgeThresh ∧
      findThreshold (cornerPool entriesB) = .ok r.cornerThresh ∧
      r.unused = findUnused s ∧
      r.results = entriesB.map (classifyEntry r.edgeThresh r.cornerThresh) := by
  unfold analyzeSheet at h
  obtain ⟨entriesA, hA, h⟩ := bind_ok_iff.mp h
  obtain ⟨qThr, hq, h⟩ := bind_ok_iff.mp h
  obtain ⟨entriesB, hB, h⟩ := bind_ok_iff.mp h
  obtain ⟨eThr, he, h⟩ := bind_ok_iff.mp h
  obtain ⟨cThr, hc, h⟩ := bind_ok_iff.mp h
  cases h
  exact ⟨entriesA, entriesB, hA, hq, hB, he, hc, rfl, rfl⟩

/-! ### Classification does not disturb the pools -/

theorem classifyEntry_edges (eThr cThr : ℚ) (e : Entry) :
    (classifyEntry eThr cThr e).edges = e.edges := by
  unfold classifyEntry
  split
  · rfl
  · cases hed : e.edges <;> cases hco : e.corners <;> simp only [hed, hco]

theorem classifyEntry_corners (eThr cThr : ℚ) (e : Entry) :
    (classifyEntry eThr cThr e).corners = e.corners := by
  unfold classifyEntry
  split
  · rfl
  · cases hed : e.edges <;> cases hco : e.corners <;> simp only [hed, hco]

theorem classifyEntry_unused_iff (eThr cThr : ℚ) (e : Entry) :
    (classifyEntry eThr cThr e).mask = some (-1) ↔ e.mask = some (-1) := by
  unfold classifyEntry
  split
  · exact Iff.rfl
  · next hguard =>
    have hm : ¬e.mask = some (-1) := fun hc => hguard (Or.inl hc)
    cases hed : e.edges <;> cases hco : e.corners <;>
      simp only [hed, hco, Option.some.injEq]
    constructor
    · intro hc
      omega
    · intro hc
      exact absurd hc hm

theorem edgeContrib_congr (e1 e2 : Entry)
    (hm : e1.mask = some (-1) ↔ e2.mask = some (-1)) (hed : e1.edges = e2.edges) :
    edgeContrib e1 = edgeContrib e2 := by
  unfold edgeContrib entryEdgeList
  by_cases h2 : e2.mask = some (-1) ∨ e2.edges = none
  · rw [if_pos h2, if_pos]
    rcases h2 with h2 | h2
    · exact Or.inl (hm.mpr h2)
    · exact Or.inr (hed.trans h2)
  · rw [if_neg h2, if_neg, hed]
    intro hc
    rcases hc with hc | hc
    · exact h2 (Or.inl (hm.mp hc))
    · exact h2 (Or.inr (hed.symm.trans hc))

theorem cornerContrib_congr (e1 e2 : Entry)
    (hm : e1.mask = some (-1) ↔ e2.mask = some (-1)) (hed : e1.edges = e2.edges)
    (hco : e1.corners = e2.corners) :
    cornerContrib e1 = cornerContrib e2 := by
  unfold cornerContrib entryCornerList
  by_cases h2 : e2.mask = some (-1) ∨ e2.edges = none
  · rw [if_pos h2, if_pos]
    rcases h2 with h2 | h2
    · exact Or.inl (hm.mpr h2)
    · exact Or.inr (hed.trans h2)
  · rw [if_neg h2, if_neg, hco]
    intro hc
    rcases hc with hc | hc
    · exact h2 (Or.inl (hm.mp hc))
    · exact h2 (Or.inr (hed.symm.trans hc))

theorem edgeContrib_classify (eThr cThr : ℚ) (e : Entry) :
    edgeContrib (classifyEntry eThr cThr e) = edgeContrib e :=
  edgeContrib_congr _ _ (classifyEntry_unused_iff eThr cThr e)
    (classifyEntry_edges eThr cThr e)

theorem cornerContrib_classify (eThr cThr : ℚ) (e : Entry) :
    cornerContrib (classifyEntry eThr cThr e) = cornerContrib e :=
  cornerContrib_congr _ _ (classifyEntry_unused_iff eThr cThr e)
    (classifyEntry_edges eThr cThr e) (classifyEntry_corners eThr cThr e)


theorem edgePool_classify (eThr cThr : ℚ) (l : List Entry) :
    edgePool (l.map (classifyEntry eThr cThr)) = edgePool l := by
  unfold edgePool
  induction l with
  | nil => rfl
  | cons a l ih =>
    rw [List.map_cons, List.flatMap_cons, List.flatMap_cons,
      edgeContrib_classify, ih]

theorem cornerPool_classify (eThr cThr : ℚ) (l : List Entry) :
    cornerPool (l.map (classifyEntry eThr cThr)) = cornerPool l := by
  unfold cornerPool
  induction l with
  | nil => rfl
  | cons a l ih =>
    rw [List.map_cons, List.flatMap_cons, List.flatMap_cons,
      cornerContrib_classify, ih]

/-! ### The shape of every final entry -/

/-- The relation between a cell coordinate and its final entry: coordinates
    recorded, and either the cell is fully transparent and carries mask -1,
    or its mask is the classification of its region diffs. -/
def finalEntryFor (s : Sheet) (eThr cThr : ℚ) (p : ℕ × ℕ) (e : Entry) : Prop :=
  e.col = p.1 ∧ e.row = p.2 ∧
    ((isUnused (getCell s p.1 p.2) = true ∧ e.mask = some (-1) ∧ e.edges = none) ∨
     (isUnused (getCell s p.1 p.2) = false ∧
       ∃ ed co, e.edges = some ed ∧ e.corners = some co ∧
         e.mask = some ((classifyMask ed co eThr cThr : ℕ) : ℤ)))

theorem pipeline_forall2 {s : Sheet} {r : AnalysisResult}
    (h : analyzeSheet s = .ok r) :
    List.Forall₂ (finalEntryFor s r.edgeThresh r.cornerThresh) cellCoords r.results := by
  obtain ⟨entriesA, entriesB, hA, _, hB, _, _, _, hres⟩ := analyzeSheet_ok_inv h
  rw [hres]
  have h1 := mapM_ok_forall2 hA
  have h2 := mapM_ok_forall2 hB
  refine forall2_chain (classifyEntry r.edgeThresh r.cornerThresh) ?_ h1 h2
  intro p e1 e2 hmk hfill
  obtain ⟨hcol, hrow, hdisj⟩ := mkEntryA_ok hmk
  rcases hdisj with ⟨hu, hune⟩ | ⟨hu, hmask, hed, hco⟩
  · subst hune
    rcases fillRegions_ok hfill with ⟨_, rfl⟩ | ⟨hne, _⟩
    · rw [classifyEntry_unused _ _ (show (unusedEntry p.1 p.2).mask = some (-1) from rfl)]
      exact ⟨rfl, rfl, Or.inl ⟨hu, rfl, rfl⟩⟩
    · exact absurd rfl hne
  · rcases fillRegions_ok hfill with ⟨hc, _⟩ | ⟨_, ed, co, rfl⟩
    · rw [hmask] at hc; cases hc
    · rw [classifyEntry_active r.edgeThresh r.cornerThresh
        (show ({ e1 with edges := some ed, corners := some co } : Entry).mask = none from hmask)
        rfl rfl]
      exact ⟨hcol, hrow, Or.inr ⟨hu, ed, co, rfl, rfl, rfl⟩⟩

theorem resultsOf_eq {s : Sheet} {r : AnalysisResult} (h : analyzeSheet s = .ok r) :
    resultsOf s = r.results := by
  unfold resultsOf
  rw [h]

theorem coords_of_forall2 {s : Sheet} {eThr cThr : ℚ} :
    ∀ {l1 : List (ℕ × ℕ)} {l2 : List Entry},
      List.Forall₂ (finalEntryFor s eThr cThr) l1 l2 →
        l2.map (fun e => (e.col, e.row)) = l1 := by
  intro l1 l2 h
  induction h with
  | nil => rfl
  | cons hr _ ih =>
    rw [List.map_cons, ih, hr.1, hr.2.1]

theorem mem_cellCoords {c r : ℕ} : (c, r) ∈ cellCoords ↔ c < COLS ∧ r < ROWS := by
  simp only [cellCoords, List.mem_flatMap, List.mem_map, List.mem_range]
  constructor
  · rintro ⟨row, hrow, col, hcol, heq⟩
    obtain ⟨h1, h2⟩ := Prod.mk.injEq .. ▸ heq
    constructor
    · rw [← h1]; exact hcol
    · rw [← h2]; exact hrow
  · rintro ⟨hc, hr⟩
    exact ⟨r, hr, c, hc, rfl⟩

/-! ### The max-gap fold: invariant and midpoint characterisation -/

/-- t is the midpoint of an adjacent pair realising the maximal gap of the
    sorted pool. -/
def isGapMidpoint (sd : List ℚ) (t : ℚ) : Prop :=
  ∃ i, 1 ≤ i ∧ i < sd.length ∧
    (∀ j, 1 ≤ j → j < sd.length → gapAt sd j ≤ gapAt sd i) ∧
    t = (sd.getD (i - 1) 0 + sd.getD i 0) / 2

theorem gapFoldAux (sd : List ℚ) :
    ∀ n : ℕ,
      (((List.range' 1 n).foldl (gapStep sd) (0, 0)) = (0, 0) ∧
        ∀ j, 1 ≤ j → j < 1 + n → gapAt sd j ≤ 0) ∨
      (1 ≤ ((List.range' 1 n).foldl (gapStep sd) (0, 0)).2 ∧
        ((List.range' 1 n).foldl (gapStep sd) (0, 0)).2 < 1 + n ∧
        ((List.range' 1 n).foldl (gapStep sd) (0, 0)).1 =
          gapAt sd ((List.range' 1 n).foldl (gapStep sd) (0, 0)).2 ∧
        0 < ((List.range' 1 n).foldl (gapStep sd) (0, 0)).1 ∧
        ∀ j, 1 ≤ j → j < 1 + n →
          gapAt sd j ≤ ((List.range' 1 n).foldl (gapStep sd) (0, 0)).1) := by
  intro n
  induction n with
  | zero =>
    left
    refine ⟨rfl, ?_⟩
    intro j hj1 hj2
    omega
  | succ n ih =>
    rw [List.range'_concat, List.foldl_append, List.foldl_cons, List.foldl_nil]
    have hstep : ∀ p : ℚ × ℕ, gapStep sd p (1 + 1 * n) =
        if p.1 < gapAt sd (1 + n) then (gapAt sd (1 + n), 1 + n) else p := by
      intro p
      unfold gapStep
      rw [show 1 + 1 * n = 1 + n by ring]
    rcases ih with ⟨heq, hall⟩ | ⟨h1, h2, h3, h4, h5⟩
    · rw [heq, hstep]
      by_cases hgap : (0 : ℚ) < gapAt sd (1 + n)
      · right
        rw [if_pos hgap]
        refine ⟨by omega, by omega, rfl, hgap, ?_⟩
        intro j hj1 hj2
        rcases Nat.lt_or_ge j (1 + n) with hj | hj
        · exact le_of_lt (lt_of_le_of_lt (hall j hj1 hj) hgap)
        · have : j = 1 + n := by omega
          rw [this]
      · left
        rw [if_neg hgap]
        refine ⟨rfl, ?_⟩
        intro j hj1 hj2
        rcases Nat.lt_or_ge j (1 + n) with hj | hj
        · exact hall j hj1 hj
        · have : j = 1 + n := by omega
          rw [this]
          exact le_of_not_lt hgap
    · rw [hstep]
      by_cases hgap : ((List.range' 1 n).foldl (gapStep sd) (0, 0)).1 < gapAt sd (1 + n)
      · right
        rw [if_pos hgap]
        refine ⟨by omega, by omega, rfl, lt_trans h4 hgap, ?_⟩
        intro j hj1 hj2
        rcases Nat.lt_or_ge j (1 + n) with hj | hj
        · exact le_of_lt (lt_of_le_of_lt (h5 j hj1 hj) hgap)
        · have : j = 1 + n := by omega
          rw [this]
      · right
        rw [if_neg hgap]
        refine ⟨h1, by omega, h3, h4, ?_⟩
        intro j hj1 hj2
        rcases Nat.lt_or_ge j (1 + n) with hj | hj
        · exact h5 j hj1 hj
        · have : j = 1 + n := by omega
          rw [this]
          exact le_of_not_lt hgap

theorem gapFold_cases (sd : List ℚ) :
    (gapFold sd = (0, 0) ∧ ∀ j, 1 ≤ j → j < sd.length → gapAt sd j ≤ 0) ∨
    (1 ≤ (gapFold sd).2 ∧ (gapFold sd).2 < sd.length ∧
      (gapFold sd).1 = gapAt sd (gapFold sd).2 ∧ 0 < (gapFold sd).1 ∧
      ∀ j, 1 ≤ j → j < sd.length → gapAt sd j ≤ (gapFold sd).1) := by
  unfold gapFold
  rcases gapFoldAux sd (sd.length - 1) with ⟨heq, hall⟩ | ⟨h1, h2, h3, h4, h5⟩
  · left
    exact ⟨heq, fun j hj1 hj2 => hall j hj1 (by omega)⟩
  · right
    exact ⟨h1, by omega, h3, h4, fun j hj1 hj2 => h5 j hj1 (by omega)⟩

theorem getD_eq_get {l : List ℚ} {i : ℕ} (h : i < l.length) :
    l.getD i 0 = l.get ⟨i, h⟩ := by
  rw [List.getD_eq_get?, List.get?_eq_get h, Option.getD_some]

theorem sorted_gap_pos {sd : List ℚ} (hs : List.Sorted (· ≤ ·) sd)
    {a b : ℚ} (ha : a ∈ sd) (hb : b ∈ sd) (hab : a < b) :
    ∃ j, 1 ≤ j ∧ j < sd.length ∧ 0 < gapAt sd j := by
  by_contra hcon
  push_neg at hcon
  have hflat : ∀ k, k < sd.length → sd.getD k 0 = sd.getD 0 0 := by
    intro k
    induction k with
    | zero => intro _; rfl
    | succ k ih =>
      intro hk
      have hk2 : k < sd.length := by omega
      have hle : sd.getD (k + 1) 0 - sd.getD k 0 ≤ 0 := by
        have := hcon (k + 1) (by omega) hk
        unfold gapAt at this
        simpa using this
      have hge : sd.getD k 0 ≤ sd.getD (k + 1) 0 := by
        rw [getD_eq_get hk2, getD_eq_get hk]
        exact List.Sorted.rel_get_of_lt hs (by exact Nat.lt_succ_self k)
      have : sd.getD (k + 1) 0 = sd.getD k 0 := by linarith
      rw [this, ih hk2]
  obtain ⟨na, hna⟩ := List.mem_iff_get.mp ha
  obtain ⟨nb, hnb⟩ := List.mem_iff_get.mp hb
  have ha2 : a = sd.getD 0 0 := by
    rw [← hna, ← getD_eq_get na.isLt]
    exact hflat na na.isLt
  have hb2 : b = sd.getD 0 0 := by
    rw [← hnb, ← getD_eq_get nb.isLt]
    exact hflat nb nb.isLt
  rw [ha2, hb2] at hab
  exact lt_irrefl _ hab

theorem findThreshold_midpoint {l : List ℚ}
    (h : ∃ a ∈ l, ∃ b ∈ l, a < b) :
    ∃ t, findThreshold l = .ok t ∧ isGapMidpoint (l.insertionSort (· ≤ ·)) t := by
  obtain ⟨a, ha, b, hb, hab⟩ := h
  have hs : List.Sorted (· ≤ ·) (l.insertionSort (· ≤ ·)) :=
    List.sorted_insertionSort (· ≤ ·) l
  have ha2 : a ∈ l.insertionSort (· ≤ ·) := (List.mem_insertionSort _).mpr ha
  have hb2 : b ∈ l.insertionSort (· ≤ ·) := (List.mem_insertionSort _).mpr hb
  obtain ⟨j, hj1, hj2, hj3⟩ := sorted_gap_pos hs ha2 hb2 hab
  rcases gapFold_cases (l.insertionSort (· ≤ ·)) with ⟨_, hall⟩ | ⟨h1, h2, h3, _, h5⟩
  · exact absurd (hall j hj1 hj2) (not_le.mpr hj3)
  · refine ⟨((l.insertionSort (· ≤ ·)).getD ((gapFold (l.insertionSort (· ≤ ·))).2 - 1) 0 +
        (l.insertionSort (· ≤ ·)).getD (gapFold (l.insertionSort (· ≤ ·))).2 0) / 2, ?_, ?_⟩
    · have h1b : 0 < (gapFold (l.insertionSort (· ≤ ·))).2 := h1
      simp only [findThreshold]
      rw [if_pos h1b]
    · refine ⟨(gapFold (l.insertionSort (· ≤ ·))).2, h1, h2, ?_, rfl⟩
      intro j2 hj21 hj22
      rw [← h3]
      exact h5 j2 hj21 hj22

/-! ### Entries that contribute nothing can be erased -/

theorem flatMap_erase_nil {α β : Type} [DecidableEq α] (f : α → List β) :
    ∀ {l : List α} {e : α}, e ∈ l → f e = [] →
      (l.erase e).flatMap f = l.flatMap f := by
  intro l
  induction l with
  | nil => intro e he; cases he
  | cons a t ih =>
    intro e he hf
    rw [List.erase_cons]
    by_cases hae : a = e
    · rw [if_pos (by rw [hae]; exact beq_self_eq_true e), List.flatMap_cons, hae, hf,
        List.nil_append]
    · rw [if_neg (by simpa using hae), List.flatMap_cons, List.flatMap_cons]
      rcases List.mem_cons.mp he with rfl | he2
      · exact absurd rfl hae
      · rw [ih he2 hf]

theorem filterMap_erase_none {α β : Type} [DecidableEq α] (f : α → Option β) :
    ∀ {l : List α} {e : α}, e ∈ l → f e = none →
      (l.erase e).filterMap f = l.filterMap f := by
  intro l
  induction l with
  | nil => intro e he; cases he
  | cons a t ih =>
    intro e he hf
    rw [List.erase_cons]
    by_cases hae : a = e
    · rw [if_pos (by rw [hae]; exact beq_self_eq_true e), List.filterMap_cons, hae, hf]
    · rw [if_neg (by simpa using hae), List.filterMap_cons, List.filterMap_cons]
      rcases List.mem_cons.mp he with rfl | he2
      · exact absurd rfl hae
      · cases hfa : f a <;> rw [ih he2 hf]

/-! ### Validator facts -/

theorem perfectMatch_iff (entries : List Entry) :
    perfectMatch entries = true ↔
      missingOf entries = ∅ ∧ extraOf entries = ∅ ∧ duplicatedOf entries = ∅ := by
  unfold perfectMatch
  rw [Bool.and_eq_true, Bool.and_eq_true, decide_eq_true_eq, decide_eq_true_eq,
    decide_eq_true_eq, and_assoc]

theorem outputMapping_isSome (entries : List Entry) :
    (outputMapping entries).isSome = true ↔ perfectMatch entries = true := by
  unfold outputMapping
  by_cases h : perfectMatch entries = true
  · rw [if_pos h]
    simp [h]
  · rw [if_neg h]
    simp [h]

theorem outputMapping_sorted (entries : List Entry) {l : List (ℤ × ℕ × ℕ)}
    (h : outputMapping entries = some l) :
    List.Sorted (fun t1 t2 : ℤ × ℕ × ℕ => t1.1 ≤ t2.1) l := by
  unfold outputMapping at h
  split at h
  · have hl := Option.some.inj h
    subst hl
    have hsorted : List.Sorted entryKeyLE (entries.insertionSort entryKeyLE) :=
      List.sorted_insertionSort entryKeyLE entries
    refine List.Pairwise.filterMap _ ?_ hsorted
    intro a a2 hle b hb b2 hb2
    cases hma : a.mask with
    | none => rw [Option.mem_def, hma] at hb; cases hb
    | some m =>
      cases hma2 : a2.mask with
      | none => rw [Option.mem_def, hma2] at hb2; cases hb2
      | some m2 =>
        rw [Option.mem_def, hma] at hb
        rw [Option.mem_def, hma2] at hb2
        dsimp only at hb hb2
        unfold entryKeyLE at hle
        rw [hma, hma2, Option.getD_some, Option.getD_some] at hle
        split at hb
        · cases hb
          split at hb2
          · cases hb2
            exact hle
          · cases hb2
        · cases hb
  · cases h

theorem outputMapping_mem {entries : List Entry} {l : List (ℤ × ℕ × ℕ)}
    (h : outputMapping entries = some l) {t : ℤ × ℕ × ℕ} (ht : t ∈ l) :
    ∃ e ∈ entries, e.mask = some t.1 ∧ 0 ≤ t.1 ∧ e.col = t.2.1 ∧ e.row = t.2.2 := by
  unfold outputMapping at h
  split at h
  · have hl := Option.some.inj h
    subst hl
    obtain ⟨e, he, hfe⟩ := List.mem_filterMap.mp ht
    have he2 : e ∈ entries := (List.mem_insertionSort entryKeyLE).mp he
    cases hma : e.mask with
    | none => rw [hma] at hfe; cases hfe
    | some m =>
      rw [hma] at hfe
      dsimp only at hfe
      split at hfe
      · next hm0 =>
        cases hfe
        exact ⟨e, he2, hma, hm0, rfl, rfl⟩
      · cases hfe
  · cases h

theorem maskSel_unused {e : Entry} (h : e.mask = some (-1)) : maskSel e = none := by
  unfold maskSel
  rw [h]
  rfl

theorem not_mem_activeEntries {e : Entry} (h : e.mask = some (-1))
    (entries : List Entry) : e ∉ activeEntries entries := by
  intro hmem
  have := (List.mem_filter.mp hmem).2
  rw [h] at this
  simp at this

/-! ### Helper lemmas tying accessors to a successful run -/

theorem analyzeSheet_isOk {s : Sheet} (h : (analyzeSheet s).isOk = true) :
    ∃ r, analyzeSheet s = .ok r := by
  cases hA : analyzeSheet s with
  | ok r => exact ⟨r, rfl⟩
  | error msg =>
    rw [hA] at h
    exact Bool.noConfusion h

theorem edgeThreshOf_eq {s : Sheet} {r : AnalysisResult}
    (h : analyzeSheet s = .ok r) : edgeThreshOf s = r.edgeThresh := by
  unfold edgeThreshOf
  rw [h]

theorem cornerThreshOf_eq {s : Sheet} {r : AnalysisResult}
    (h : analyzeSheet s = .ok r) : cornerThreshOf s = r.cornerThresh := by
  unfold cornerThreshOf
  rw [h]

theorem final_entry_at {s : Sheet} {col row : ℕ}
    (hok : (analyzeSheet s).isOk = true) (hc : col < COLS) (hr : row < ROWS) :
    ∃ e ∈ resultsOf s, finalEntryFor s (edgeThreshOf s) (cornerThreshOf s) (col, row) e := by
  obtain ⟨r, hA⟩ := analyzeSheet_isOk hok
  obtain ⟨e, he, hfe⟩ :=
    forall2_mem_left (pipeline_forall2 hA) (mem_cellCoords.mpr ⟨hc, hr⟩)
  rw [resultsOf_eq hA, edgeThreshOf_eq hA, cornerThreshOf_eq hA]
  exact ⟨e, he, hfe⟩

theorem mem_final_entry {s : Sheet} {e : Entry} (he : e ∈ resultsOf s) :
    ∃ p ∈ cellCoords, finalEntryFor s (edgeThreshOf s) (cornerThreshOf s) p e := by
  cases hA : analyzeSheet s with
  | error msg =>
    unfold resultsOf at he
    rw [hA] at he
    cases he
  | ok r =>
    have he2 : e ∈ r.results := by
      rw [← resultsOf_eq hA]
      exact he
    obtain ⟨p, hp, hfe⟩ := forall2_mem_right (pipeline_forall2 hA) he2
    rw [edgeThreshOf_eq hA, cornerThreshOf_eq hA]
    exact ⟨p, hp, hfe⟩

theorem resultsOf_coords {s : Sheet} {r : AnalysisResult}
    (h : analyzeSheet s = .ok r) :
    (resultsOf s).map (fun e => (e.col, e.row)) = cellCoords := by
  rw [resultsOf_eq h]
  exact coords_of_forall2 (pipeline_forall2 h)

theorem maskAt_isOk {s : Sheet} {col row : ℕ} {m : ℤ}
    (h : maskAtOf s col row = some m) : (analyzeSheet s).isOk = true := by
  unfold maskAtOf resultsOf at h
  cases hA : analyzeSheet s with
  | ok r => rfl
  | error msg =>
    rw [hA] at h
    simp at h

/-! ### The claims -/

/-- C1: for every sheet, every mask recovered for a non-unused cell has a
    diagonal bit set only when both flanking cardinal bits are set
    (NW=16 needs N=1 and W=2; NE=32 needs N=1 and E=4; SW=64 needs S=8 and
    W=2; SE=128 needs S=8 and E=4). -/
theorem c1_diagonal_bits_require_flanking_cardinals (s : Sheet) (col row : ℕ)
    (m : ℤ) (hm : maskAtOf s col row = some m) (h0 : 0 ≤ m) :
    (m.toNat &&& 16 ≠ 0 → m.toNat &&& 1 ≠ 0 ∧ m.toNat &&& 2 ≠ 0) ∧
    (m.toNat &&& 32 ≠ 0 → m.toNat &&& 1 ≠ 0 ∧ m.toNat &&& 4 ≠ 0) ∧
    (m.toNat &&& 64 ≠ 0 → m.toNat &&& 8 ≠ 0 ∧ m.toNat &&& 2 ≠ 0) ∧
    (m.toNat &&& 128 ≠ 0 → m.toNat &&& 8 ≠ 0 ∧ m.toNat &&& 4 ≠ 0) := by
  unfold maskAtOf at hm
  cases hfind : (resultsOf s).find? (fun e => e.col == col && e.row == row) with
  | none =>
    rw [hfind] at hm
    cases hm
  | some e =>
    rw [hfind] at hm
    have hmask : e.mask = some m := hm
    have he : e ∈ resultsOf s := List.mem_of_find?_eq_some hfind
    obtain ⟨p, _, hfe⟩ := mem_final_entry he
    rcases hfe.2.2 with ⟨_, hmm, _⟩ | ⟨_, ed, co, _, _, hmm⟩
    · rw [hmask] at hmm
      have := Option.some.inj hmm
      omega
    · rw [hmask] at hmm
      have hm3 := Option.some.inj hmm
      subst hm3
      rw [Int.toNat_natCast]
      unfold classifyMask
      exact composeMask_diag _ _ _ _ _ _ _ _

/-- C2 (amended): a cell whose North edge diff is at or above the edge
    threshold while its W, E, S edge diffs and its SW, SE corner diffs are
    below their thresholds is classified 206: bit N cleared and, since the
    diagonal rule needs the adjacent cardinal, bits NW and NE cleared as
    well; W, E, S, SW, SE set. -/
theorem c2_north_deviation_yields_206 (nd wd ed sd nwd ned swd sed eThr cThr : ℚ)
    (hn : eThr ≤ nd) (hw : wd < eThr) (he : ed < eThr) (hs : sd < eThr)
    (hsw : swd < cThr) (hse : sed < cThr) :
    classifyMask (nd, wd, ed, sd) (nwd, ned, swd, sed) eThr cThr = 206 := by
  unfold classifyMask
  dsimp only
  rw [decide_eq_false (not_lt.mpr hn), decide_eq_true hw, decide_eq_true he,
    decide_eq_true hs, decide_eq_true hsw, decide_eq_true hse]
  cases decide (nwd < cThr) <;> cases decide (ned < cThr) <;> rfl

/-- Witness for C2 (amended) at concrete scores and thresholds. -/
theorem c2_north_deviation_yields_206_witness :
    classifyMask (40000, 0, 0, 0) (7500, 7500, 0, 0) 20000 3750 = 206 :=
  c2_north_deviation_yields_206 40000 0 0 0 7500 7500 0 0 20000 3750
    (by decide) (by decide) (by decide) (by decide) (by decide) (by decide)

/-- C3 (amended): a fully transparent reference cell does not abort the run
    (the script has no such check): when analysis succeeds, the entry at
    (1, 0) is simply recorded as unused with mask -1, and its RGB channels
    still serve as the baseline. -/
theorem c3_transparent_reference_is_unused_not_fatal (s : Sheet)
    (hu : isUnused (getCell s 1 0) = true)
    (hok : (analyzeSheet s).isOk = true) :
    ∃ e ∈ resultsOf s, e.col = 1 ∧ e.row = 0 ∧ e.mask = some (-1) := by
  obtain ⟨e, he, hcol, hrow, hdisj⟩ := final_entry_at hok
    (show 1 < COLS by decide) (show 0 < ROWS by decide)
  rcases hdisj with ⟨_, hmask, _⟩ | ⟨hfalse, _⟩
  · exact ⟨e, he, hcol, hrow, hmask⟩
  · rw [hu] at hfalse
    cases hfalse

/-- C4: find_threshold on an empty pool computes the conservative default 100
    but then dies with an IndexError in its own diagnostic print, so it
    raises rather than returning; a single available value v yields v / 2. -/
theorem c4_find_threshold_empty_pool_raises :
    findThreshold [] = .error "IndexError: list index out of range" ∧
      findThreshold [(5 : ℚ)] = .ok (5 / 2) :=
  ⟨rfl, rfl⟩

/-- C5: each discovered threshold is exactly find_threshold of its own pool
    (edge from the edge pool, corner from the corner pool), and whenever a
    pool holds two distinct values the threshold is the midpoint of the two
    adjacent values bounding the largest gap of the ascending-sorted pool. -/
theorem c5_thresholds_are_gap_midpoints_of_own_pools (s : Sheet)
    (hok : (analyzeSheet s).isOk = true)
    (he : ∃ a ∈ edgePool (resultsOf s), ∃ b ∈ edgePool (resultsOf s), a < b)
    (hc : ∃ a ∈ cornerPool (resultsOf s), ∃ b ∈ cornerPool (resultsOf s), a < b) :
    findThreshold (edgePool (resultsOf s)) = .ok (edgeThreshOf s) ∧
    findThreshold (cornerPool (resultsOf s)) = .ok (cornerThreshOf s) ∧
    isGapMidpoint ((edgePool (resultsOf s)).insertionSort (· ≤ ·)) (edgeThreshOf s) ∧
    isGapMidpoint ((cornerPool (resultsOf s)).insertionSort (· ≤ ·)) (cornerThreshOf s) := by
  obtain ⟨r, hA⟩ := analyzeSheet_isOk hok
  obtain ⟨eA, eB, _, _, hB, hET, hCT, _, hres⟩ := analyzeSheet_ok_inv hA
  have hpoolE : edgePool (resultsOf s) = edgePool eB := by
    rw [resultsOf_eq hA, hres, edgePool_classify]
  have hpoolC : cornerPool (resultsOf s) = cornerPool eB := by
    rw [resultsOf_eq hA, hres, cornerPool_classify]
  have h1 : findThreshold (edgePool (resultsOf s)) = .ok (edgeThreshOf s) := by
    rw [hpoolE, edgeThreshOf_eq hA]
    exact hET
  have h2 : findThreshold (cornerPool (resultsOf s)) = .ok (cornerThreshOf s) := by
    rw [hpoolC, cornerThreshOf_eq hA]
    exact hCT
  obtain ⟨tE, hTE, hmidE⟩ := findThreshold_midpoint he
  obtain ⟨tC, hTC, hmidC⟩ := findThreshold_midpoint hc
  have heqE : tE = edgeThreshOf s := by
    have := hTE.symm.trans h1
    exact Except.ok.inj this
  have heqC : tC = cornerThreshOf s := by
    have := hTC.symm.trans h2
    exact Except.ok.inj this
  exact ⟨h1, h2, heqE ▸ hmidE, heqC ▸ hmidC⟩

/-- C6: on a full 256-pixel cell and reference, each of the eight region
    scores computed by analyze_sheet equals the spec-side mean over the spec
    region geometry: 10000 for a transparent pixel, else the squared RGB
    distance to the reference at the same offset, averaged over the region. -/
theorem c6_region_scores_are_spec_means (cell : List RGBA) (ref : List RGB)
    (hc : cell.length = 256) (hr : ref.length = 256) :
    subRegionDiff cell ref 3 0 10 3 = some (specRegionScore cell ref specRegionN) ∧
    subRegionDiff cell ref 3 13 10 3 = some (specRegionScore cell ref specRegionS) ∧
    subRegionDiff cell ref 0 3 3 10 = some (specRegionScore cell ref specRegionW) ∧
    subRegionDiff cell ref 13 3 3 10 = some (specRegionScore cell ref specRegionE) ∧
    subRegionDiff cell ref 0 0 4 4 = some (specRegionScore cell ref specRegionNW) ∧
    subRegionDiff cell ref 12 0 4 4 = some (specRegionScore cell ref specRegionNE) ∧
    subRegionDiff cell ref 0 12 4 4 = some (specRegionScore cell ref specRegionSW) ∧
    subRegionDiff cell ref 12 12 4 4 = some (specRegionScore cell ref specRegionSE) := by
  refine ⟨?_, ?_, ?_, ?_, ?_, ?_, ?_, ?_⟩
  · exact subRegionDiff_spec cell ref 3 0 10 3 specRegionN (by decide)
      (by rw [hc, hr]; decide) (by decide)
  · exact subRegionDiff_spec cell ref 3 13 10 3 specRegionS (by decide)
      (by rw [hc, hr]; decide) (by decide)
  · exact subRegionDiff_spec cell ref 0 3 3 10 specRegionW (by decide)
      (by rw [hc, hr]; decide) (by decide)
  · exact subRegionDiff_spec cell ref 13 3 3 10 specRegionE (by decide)
      (by rw [hc, hr]; decide) (by decide)
  · exact subRegionDiff_spec cell ref 0 0 4 4 specRegionNW (by decide)
      (by rw [hc, hr]; decide) (by decide)
  · exact subRegionDiff_spec cell ref 12 0 4 4 specRegionNE (by decide)
      (by rw [hc, hr]; decide) (by decide)
  · exact subRegionDiff_spec cell ref 0 12 4 4 specRegionSW (by decide)
      (by rw [hc, hr]; decide) (by decide)
  · exact subRegionDiff_spec cell ref 12 12 4 4 specRegionSE (by decide)
      (by rw [hc, hr]; decide) (by decide)

/-- C7: the validation succeeds exactly when the missing, extra and
    duplicated sets are all empty; the mapping is emitted exactly on success
    and is sorted by ascending mask value. -/
theorem c7_validator_success_iff_empty_and_sorted_mapping (entries : List Entry) :
    (perfectMatch entries = true ↔
      missingOf entries = ∅ ∧ extraOf entries = ∅ ∧ duplicatedOf entries = ∅) ∧
    ((outputMapping entries).isSome = true ↔ perfectMatch entries = true) ∧
    (∀ l, outputMapping entries = some l →
      List.Sorted (fun t1 t2 : ℤ × ℕ × ℕ => t1.1 ≤ t2.1) l) :=
  ⟨perfectMatch_iff entries, outputMapping_isSome entries,
    fun _ hl => outputMapping_sorted entries hl⟩

/-- Witness for C7 at the empty entry list. -/
theorem c7_validator_witness :
    (perfectMatch [] = true ↔
      missingOf [] = ∅ ∧ extraOf [] = ∅ ∧ duplicatedOf [] = ∅) ∧
    ((outputMapping []).isSome = true ↔ perfectMatch [] = true) ∧
    (∀ l, outputMapping [] = some l →
      List.Sorted (fun t1 t2 : ℤ × ℕ × ℕ => t1.1 ≤ t2.1) l) :=
  c7_validator_success_iff_empty_and_sorted_mapping []

/-- C9: every fully transparent cell ends with mask -1; erasing it changes
    neither pool nor the validator multiset; it is not an active grid entry;
    and no emitted triple carries its coordinates. -/
theorem c9_unused_cells_are_excluded_everywhere (s : Sheet) (col row : ℕ)
    (hok : (analyzeSheet s).isOk = true) (hc : col < COLS) (hr : row < ROWS)
    (hu : isUnused (getCell s col row) = true) :
    ∃ e ∈ resultsOf s,
      e.col = col ∧ e.row = row ∧ e.mask = some (-1) ∧
      edgePool ((resultsOf s).erase e) = edgePool (resultsOf s) ∧
      cornerPool ((resultsOf s).erase e) = cornerPool (resultsOf s) ∧
      e ∉ activeEntries (resultsOf s) ∧
      masksOf ((resultsOf s).erase e) = masksOf (resultsOf s) ∧
      (∀ l, outputMapping (resultsOf s) = some l →
        ∀ t ∈ l, ¬(t.2.1 = col ∧ t.2.2 = row)) := by
  obtain ⟨e, he, hcol, hrow, hdisj⟩ := final_entry_at hok hc hr
  have hmask : e.mask = some (-1) := by
    rcases hdisj with ⟨_, hmask, _⟩ | ⟨hfalse, _⟩
    · exact hmask
    · rw [hu] at hfalse
      cases hfalse
  have hnilE : edgeContrib e = [] := by
    unfold edgeContrib
    rw [if_pos (Or.inl hmask)]
  have hnilC : cornerContrib e = [] := by
    unfold cornerContrib
    rw [if_pos (Or.inl hmask)]
  refine ⟨e, he, hcol, hrow, hmask, ?_, ?_, ?_, ?_, ?_⟩
  · exact flatMap_erase_nil edgeContrib he hnilE
  · exact flatMap_erase_nil cornerContrib he hnilC
  · exact not_mem_activeEntries hmask _
  · exact filterMap_erase_none maskSel he (maskSel_unused hmask)
  · intro l hl t ht hcoords
    obtain ⟨e2, he2, hm2, h02, hcol2, hrow2⟩ := outputMapping_mem hl ht
    obtain ⟨r, hA⟩ := analyzeSheet_isOk hok
    have hnodup : ((resultsOf s).map (fun e3 => (e3.col, e3.row))).Nodup := by
      rw [resultsOf_coords hA]
      decide
    have hcc : (e2.col, e2.row) = (e.col, e.row) := by
      rw [hcol2, hrow2, hcol, hrow, hcoords.1, hcoords.2]
    have hee : e2 = e := List.inj_on_of_nodup_map hnodup he2 he hcc
    rw [hee, hmask] at hm2
    have := Option.some.inj hm2
    omega

/-- C10: every pixel index computed for the eight regions requested by the
    classifier stays inside the 256-pixel cell buffer, and every such region
    is non-empty, so the mean never divides by zero. -/
theorem c10_region_indices_in_bounds_and_nonempty :
    (((regionIdx 3 0 10 3).all fun i => decide (i < 256)) = true ∧
      0 < (regionIdx 3 0 10 3).length) ∧
    (((regionIdx 3 13 10 3).all fun i => decide (i < 256)) = true ∧
      0 < (regionIdx 3 13 10 3).length) ∧
    (((regionIdx 0 3 3 10).all fun i => decide (i < 256)) = true ∧
      0 < (regionIdx 0 3 3 10).length) ∧
    (((regionIdx 13 3 3 10).all fun i => decide (i < 256)) = true ∧
      0 < (regionIdx 13 3 3 10).length) ∧
    (((regionIdx 0 0 4 4).all fun i => decide (i < 256)) = true ∧
      0 < (regionIdx 0 0 4 4).length) ∧
    (((regionIdx 12 0 4 4).all fun i => decide (i < 256)) = true ∧
      0 < (regionIdx 12 0 4 4).length) ∧
    (((regionIdx 0 12 4 4).all fun i => decide (i < 256)) = true ∧
      0 < (regionIdx 0 12 4 4).length) ∧
    (((regionIdx 12 12 4 4).all fun i => decide (i < 256)) = true ∧
      0 < (regionIdx 12 12 4 4).length) := by
  decide

/-! ### Concrete evaluations

Rat arithmetic in Batteries is irreducible by default, which blocks
kernel evaluation of the pipeline on concrete sheets; restore default
reducibility for the four operations inside this file. -/

attribute [local semireducible] Rat.add Rat.mul Rat.inv Rat.sub

set_option maxRecDepth 1000000

set_option maxHeartbeats 40000000

theorem clearRef_ok : (analyzeSheet clearRefSheet).isOk = true := by decide

theorem northDev_mask00 : maskAtOf northDevSheet 0 0 = some 206 := by decide

theorem northDev_edgePool :
    edgePool (resultsOf northDevSheet) = [40000, 0, 0, 0, 0, 0, 0, 0] := by decide

theorem northDev_cornerPool :
    cornerPool (resultsOf northDevSheet) = [7500, 7500, 0, 0, 0, 0, 0, 0] := by decide

/-- C8 (code bug): on a sheet holding only the reference cell and
    transparent cells, every quadrant diff of the single active cell is zero,
    the positive-diff pool is empty, and the run dies in the first-pass
    diagnostic print (min of an empty sequence) before any validation. -/
theorem c8_reference_only_sheet_crashes_with_value_error :
    analyzeSheet refOnlySheet =
      .error "ValueError: min() arg is an empty sequence" := by decide

/-- C2 counterexample: on a sheet whose cell (0, 0) equals the reference
    except for a large deviation on its North edge region, the recovered
    mask is 206, not the 254 the claim states. -/
theorem c2_counterexample_mask_is_206_not_254 :
    maskAtOf northDevSheet 0 0 = some 206 ∧ (206 : ℤ) ≠ 254 :=
  ⟨northDev_mask00, by decide⟩

/-- C3 counterexample: a sheet whose reference cell (1, 0) is fully
    transparent is analysed to completion; no error of any kind is raised. -/
theorem c3_counterexample_transparent_reference_succeeds :
    isUnused (getCell clearRefSheet 1 0) = true ∧
      (analyzeSheet clearRefSheet).isOk = true :=
  ⟨by decide, clearRef_ok⟩

/-- Witness for C1 at the cell (0, 0) of the North-deviation sheet, whose
    recovered mask is 206. -/
theorem c1_witness :
    ((206 : ℤ).toNat &&& 16 ≠ 0 → (206 : ℤ).toNat &&& 1 ≠ 0 ∧ (206 : ℤ).toNat &&& 2 ≠ 0) ∧
    ((206 : ℤ).toNat &&& 32 ≠ 0 → (206 : ℤ).toNat &&& 1 ≠ 0 ∧ (206 : ℤ).toNat &&& 4 ≠ 0) ∧
    ((206 : ℤ).toNat &&& 64 ≠ 0 → (206 : ℤ).toNat &&& 8 ≠ 0 ∧ (206 : ℤ).toNat &&& 2 ≠ 0) ∧
    ((206 : ℤ).toNat &&& 128 ≠ 0 → (206 : ℤ).toNat &&& 8 ≠ 0 ∧ (206 : ℤ).toNat &&& 4 ≠ 0) :=
  c1_diagonal_bits_require_flanking_cardinals northDevSheet 0 0 206
    northDev_mask00 (by decide)

/-- Witness for C3 (amended) at the transparent-reference sheet. -/
theorem c3_witness :
    ∃ e ∈ resultsOf clearRefSheet, e.col = 1 ∧ e.row = 0 ∧ e.mask = some (-1) :=
  c3_transparent_reference_is_unused_not_fatal clearRefSheet (by decide) clearRef_ok

/-- Witness for C5 at the North-deviation sheet, whose pools each hold two
    distinct values. -/
theorem c5_witness :
    findThreshold (edgePool (resultsOf northDevSheet)) =
      .ok (edgeThreshOf northDevSheet) ∧
    findThreshold (cornerPool (resultsOf northDevSheet)) =
      .ok (cornerThreshOf northDevSheet) ∧
    isGapMidpoint ((edgePool (resultsOf northDevSheet)).insertionSort (· ≤ ·))
      (edgeThreshOf northDevSheet) ∧
    isGapMidpoint ((cornerPool (resultsOf northDevSheet)).insertionSort (· ≤ ·))
      (cornerThreshOf northDevSheet) :=
  c5_thresholds_are_gap_midpoints_of_own_pools northDevSheet
    (maskAt_isOk northDev_mask00)
    (by rw [northDev_edgePool]; decide)
    (by rw [northDev_cornerPool]; decide)

def flatCell : List RGBA := List.replicate 256 solidPix

def flatRef : List RGB := List.replicate 256 (10, 10, 10)

/-- Witness for C6 at a uniform opaque cell and reference. -/
theorem c6_witness :
    subRegionDiff flatCell flatRef 3 0 10 3 = some (specRegionScore flatCell flatRef specRegionN) ∧
    subRegionDiff flatCell flatRef 3 13 10 3 = some (specRegionScore flatCell flatRef specRegionS) ∧
    subRegionDiff flatCell flatRef 0 3 3 10 = some (specRegionScore flatCell flatRef specRegionW) ∧
    subRegionDiff flatCell flatRef 13 3 3 10 = some (specRegionScore flatCell flatRef specRegionE) ∧
    subRegionDiff flatCell flatRef 0 0 4 4 = some (specRegionScore flatCell flatRef specRegionNW) ∧
    subRegionDiff flatCell flatRef 12 0 4 4 = some (specRegionScore flatCell flatRef specRegionNE) ∧
    subRegionDiff flatCell flatRef 0 12 4 4 = some (specRegionScore flatCell flatRef specRegionSW) ∧
    subRegionDiff flatCell flatRef 12 12 4 4 = some (specRegionScore flatCell flatRef specRegionSE) :=
  c6_region_scores_are_spec_means flatCell flatRef (by decide) (by decide)

/-- Witness for C9 at the transparent cell (2, 0) of the
    transparent-reference sheet. -/
theorem c9_witness :
    ∃ e ∈ resultsOf clearRefSheet,
      e.col = 2 ∧ e.row = 0 ∧ e.mask = some (-1) ∧
      edgePool ((resultsOf clearRefSheet).erase e) = edgePool (resultsOf clearRefSheet) ∧
      cornerPool ((resultsOf clearRefSheet).erase e) = cornerPool (resultsOf clearRefSheet) ∧
      e ∉ activeEntries (resultsOf clearRefSheet) ∧
      masksOf ((resultsOf clearRefSheet).erase e) = masksOf (resultsOf clearRefSheet) ∧
      (∀ l, outputMapping (resultsOf clearRefSheet) = some l →
        ∀ t ∈ l, ¬(t.2.1 = 2 ∧ t.2.2 = 0)) :=
  c9_unused_cells_are_excluded_everywhere clearRefSheet 2 0 clearRef_ok
    (by decide) (by decide) (by decide)

end TileFun
